import Mathlib

/-!
Shallow embedding of the expression-evaluation and grid-sampling core of the
graphe-two repository (src/src/utils/{mathParser,complexMathParser,gridGenerator,
complexGridGenerator,latexConverter}.ts).

JavaScript numbers are modelled as `JsNum`: a finite rational, plus the three
non-finite values +Infinity, -Infinity and NaN.  Thrown evaluation errors are
modelled with `Except`.  The opaque mathjs compiled expression is modelled as a
function from the two bound real inputs to the value (or thrown error) that
`compiled.evaluate` produces.
-/

/-- A JavaScript number: a finite value (modelled as a rational), +Infinity,
-Infinity, or NaN. -/
inductive JsNum where
  | finite (q : ℚ)
  | posInf
  | negInf
  | nan
deriving DecidableEq, Repr

/-- JavaScript `isFinite`. -/
def JsNum.isFinite : JsNum → Bool
  | .finite _ => true
  | _ => false

/-- JavaScript `Math.min` (NaN-propagating). -/
def jsMin : JsNum → JsNum → JsNum
  | .nan, _ => .nan
  | _, .nan => .nan
  | .negInf, _ => .negInf
  | _, .negInf => .negInf
  | .posInf, b => b
  | a, .posInf => a
  | .finite a, .finite b => .finite (min a b)

/-- JavaScript `Math.max` (NaN-propagating). -/
def jsMax : JsNum → JsNum → JsNum
  | .nan, _ => .nan
  | _, .nan => .nan
  | .posInf, _ => .posInf
  | _, .posInf => .posInf
  | .negInf, b => b
  | a, .negInf => a
  | .finite a, .finite b => .finite (max a b)

/-- JavaScript subtraction on numbers. -/
def jsSub : JsNum → JsNum → JsNum
  | .nan, _ => .nan
  | _, .nan => .nan
  | .finite a, .finite b => .finite (a - b)
  | .posInf, .posInf => .nan
  | .posInf, _ => .posInf
  | .negInf, .negInf => .nan
  | .negInf, _ => .negInf
  | .finite _, .posInf => .negInf
  | .finite _, .negInf => .posInf

/-- JavaScript addition on numbers. -/
def jsAdd : JsNum → JsNum → JsNum
  | .nan, _ => .nan
  | _, .nan => .nan
  | .finite a, .finite b => .finite (a + b)
  | .posInf, .negInf => .nan
  | .negInf, .posInf => .nan
  | .posInf, _ => .posInf
  | _, .posInf => .posInf
  | .negInf, _ => .negInf
  | _, .negInf => .negInf

/-- JavaScript multiplication on numbers. -/
def jsMul : JsNum → JsNum → JsNum
  | .nan, _ => .nan
  | _, .nan => .nan
  | .finite a, .finite b => .finite (a * b)
  | .posInf, .posInf => .posInf
  | .posInf, .negInf => .negInf
  | .negInf, .posInf => .negInf
  | .negInf, .negInf => .posInf
  | .posInf, .finite b => if b = 0 then .nan else if 0 < b then .posInf else .negInf
  | .negInf, .finite b => if b = 0 then .nan else if 0 < b then .negInf else .posInf
  | .finite a, .posInf => if a = 0 then .nan else if 0 < a then .posInf else .negInf
  | .finite a, .negInf => if a = 0 then .nan else if 0 < a then .negInf else .posInf

/-- The finite rational carried by a `JsNum`, when there is one. -/
def JsNum.toRat : JsNum → Option ℚ
  | .finite q => some q
  | _ => none

/-- A JavaScript property value that may or may not be a number (models the
`typeof result.re === number ? result.re : NaN` checks). -/
inductive JsField where
  | num (v : JsNum)
  | nonNumeric
deriving DecidableEq, Repr

/-- Reading a field as a number, with NaN for non-numeric content
(`typeof result.re === number ? result.re : NaN`). -/
def JsField.toNum : JsField → JsNum
  | .num v => v
  | .nonNumeric => .nan

/-- The value produced by `compiled.evaluate(scope)`: a plain number, a complex
object carrying `re`/`im` properties, or any other value (boolean, matrix,
object without `re`/`im`, ...). -/
inductive MathValue where
  | num (v : JsNum)
  | cplx (re im : JsField)
  | other
deriving DecidableEq, Repr

/-- Opaque marker for a thrown evaluation error. -/
inductive EvalErr where
  | thrown
deriving DecidableEq, Repr

/-- A compiled real-mode expression (mathParser.ts `ParsedExpression`): the
opaque mathjs executable is modelled as the function taking the scope values
`x`, `y` to the result of `compiled.evaluate({x, y})` (or the thrown error). -/
structure ParsedExpression where
  eval : ℚ → ℚ → Except EvalErr MathValue

/-- A compiled complex-mode expression (complexMathParser.ts
`ParsedComplexExpression`): the executable is modelled as the function taking
the real pair (x, y) — from which the code builds z = x + yi — to the result of
`compiled.evaluate({z, x, y})` (or the thrown error). -/
structure ParsedComplexExpression where
  eval : ℚ → ℚ → Except EvalErr MathValue

/-- Result record of complex evaluation (complexMathParser.ts `ComplexResult`). -/
structure ComplexResult where
  real : JsNum
  imaginary : JsNum
deriving DecidableEq, Repr

/-- mathParser.ts `evaluateAt` (lines 277-298): evaluate at (x, y); a finite
number is returned as-is, a non-finite number becomes NaN, a complex result or
any other value becomes NaN, and a thrown error becomes NaN. -/
def evaluateAt (parsed : ParsedExpression) (x y : ℚ) : JsNum :=
  match parsed.eval x y with
  | .error _ => .nan
  | .ok result =>
    match result with
    | .num v => if v.isFinite then v else .nan
    | .cplx _ _ => .nan
    | .other => .nan

/-- complexMathParser.ts `evaluateComplexAt` (lines 189-219): evaluate at
z = x + yi; a plain number result is returned as (result, 0); a complex object
has its `re`/`im` fields read as numbers (NaN when non-numeric) and is returned
as-is when both are finite, else as (NaN, NaN); any other value and any thrown
error give (NaN, NaN). -/
def evaluateComplexAt (parsed : ParsedComplexExpression) (x y : ℚ) : ComplexResult :=
  match parsed.eval x y with
  | .error _ => ⟨.nan, .nan⟩
  | .ok result =>
    match result with
    | .num v => ⟨v, .finite 0⟩
    | .cplx reF imF =>
      let re := reF.toNum
      let im := imF.toNum
      if re.isFinite && im.isFinite then ⟨re, im⟩ else ⟨.nan, .nan⟩
    | .other => ⟨.nan, .nan⟩

/-- gridGenerator.ts `Domain` (shared with complexGridGenerator.ts). -/
structure Domain where
  xMin : ℚ
  xMax : ℚ
  yMin : ℚ
  yMax : ℚ
deriving DecidableEq, Repr

/-- The optional `zClip` range `{min, max}` taken by the grid generators. -/
structure ClipRange where
  min : ℚ
  max : ℚ
deriving DecidableEq, Repr

/-- gridGenerator.ts `GridData`. -/
structure GridData where
  x : List ℚ
  y : List ℚ
  z : List (List JsNum)
  zMin : JsNum
  zMax : JsNum
deriving DecidableEq, Repr

/-- complexGridGenerator.ts `ComplexGridData`. -/
structure ComplexGridData where
  x : List ℚ
  y : List ℚ
  real : List (List JsNum)
  imaginary : List (List JsNum)
  realMin : JsNum
  realMax : JsNum
  imaginaryMin : JsNum
  imaginaryMax : JsNum
deriving DecidableEq, Repr

/-- `linspace(start, end, n)` of gridGenerator.ts lines 82-93 (the identical
copy lives in complexGridGenerator.ts lines 106-117): fewer than 2 points give
the single start value, otherwise n points `start + step * i` with
`step = (end - start) / (n - 1)`. -/
def linspace (start endv : ℚ) (n : ℕ) : List ℚ :=
  if n < 2 then [start]
  else (List.range n).map (fun i : ℕ => start + (endv - start) / ((n : ℚ) - 1) * (i : ℚ))

/-- The clipping step of the grid loops (gridGenerator.ts lines 48-55,
complexGridGenerator.ts lines 63-70): a finite value is clamped with
`Math.max(zClip.min, Math.min(zClip.max, val))`, a non-finite value is set to
NaN, and without a clip range the value passes through unchanged. -/
def applyClip : Option ClipRange → JsNum → JsNum
  | none, v => v
  | some c, v =>
    if v.isFinite then jsMax (.finite c.min) (jsMin (.finite c.max) v) else .nan

/-- One update of the running minimum over finite values
(`if (isFinite(val)) zMin = Math.min(zMin, val)`). -/
def minStep (acc v : JsNum) : JsNum := if v.isFinite then jsMin acc v else acc

/-- One update of the running maximum over finite values. -/
def maxStep (acc v : JsNum) : JsNum := if v.isFinite then jsMax acc v else acc

/-- gridGenerator.ts `generateGrid` (lines 26-73): sample the expression on a
`resolution × resolution` lattice (row index over y, column index over x),
optionally clipping finite values, tracking min/max over the finite (clipped)
entries starting from ±Infinity, and defaulting either bound to 0 when it ends
non-finite. -/
def generateGrid (parsed : ParsedExpression) (domain : Domain) (resolution : ℕ)
    (zClip : Option ClipRange) : GridData :=
  let x := linspace domain.xMin domain.xMax resolution
  let y := linspace domain.yMin domain.yMax resolution
  let z := y.map (fun yi => x.map (fun xj => applyClip zClip (evaluateAt parsed xj yi)))
  let zMin0 := z.foldl (fun acc row => row.foldl minStep acc) .posInf
  let zMax0 := z.foldl (fun acc row => row.foldl maxStep acc) .negInf
  { x := x, y := y, z := z,
    zMin := if zMin0.isFinite then zMin0 else .finite 0,
    zMax := if zMax0.isFinite then zMax0 else .finite 0 }

/-- complexGridGenerator.ts `generateComplexGrid` (lines 34-97): as
`generateGrid`, with the evaluator result split into a real (height) channel —
the only channel the clip applies to — and an imaginary channel pushed
untouched, each with its own finite-value min/max and 0 fallbacks. -/
def generateComplexGrid (parsed : ParsedComplexExpression) (domain : Domain)
    (resolution : ℕ) (zClip : Option ClipRange) : ComplexGridData :=
  let x := linspace domain.xMin domain.xMax resolution
  let y := linspace domain.yMin domain.yMax resolution
  let real := y.map (fun yi => x.map (fun xj =>
    applyClip zClip (evaluateComplexAt parsed xj yi).real))
  let imaginary := y.map (fun yi => x.map (fun xj =>
    (evaluateComplexAt parsed xj yi).imaginary))
  let realMin0 := real.foldl (fun acc row => row.foldl minStep acc) .posInf
  let realMax0 := real.foldl (fun acc row => row.foldl maxStep acc) .negInf
  let imagMin0 := imaginary.foldl (fun acc row => row.foldl minStep acc) .posInf
  let imagMax0 := imaginary.foldl (fun acc row => row.foldl maxStep acc) .negInf
  { x := x, y := y, real := real, imaginary := imaginary,
    realMin := if realMin0.isFinite then realMin0 else .finite 0,
    realMax := if realMax0.isFinite then realMax0 else .finite 0,
    imaginaryMin := if imagMin0.isFinite then imagMin0 else .finite 0,
    imaginaryMax := if imagMax0.isFinite then imagMax0 else .finite 0 }

/-- The collection loop shared verbatim by `autoZLimits` (gridGenerator.ts
lines 106-115) and `autoComplexZLimits` (complexGridGenerator.ts lines
130-139): gather all finite matrix values in row-major order. -/
def collectFinite (m : List (List JsNum)) : List ℚ :=
  (m.foldl (fun acc row => row.foldl
    (fun a v => if v.isFinite then a ++ [v] else a) acc) []).filterMap JsNum.toRat

/-- Ascending insertion of one value into a sorted list. -/
def insertAsc (a : ℚ) : List ℚ → List ℚ
  | [] => [a]
  | b :: bs => if a ≤ b then a :: b :: bs else b :: insertAsc a bs

/-- `allValues.sort((a, b) => a - b)`: the ascending sort of the collected
values (as a value list the result of any comparison sort coincides). -/
def sortAsc : List ℚ → List ℚ
  | [] => []
  | a :: as => insertAsc a (sortAsc as)

/-- JavaScript array read `a[i]` with an integer index: NaN stands for the
`undefined` an out-of-bounds read produces (the only use sites feed the value
straight into arithmetic, where `undefined` behaves as NaN). -/
def jsGet (l : List ℚ) (i : ℤ) : JsNum :=
  if h : 0 ≤ i ∧ i.toNat < l.length then .finite (l.get ⟨i.toNat, h.2⟩) else .nan

/-- The percentile-limit computation shared verbatim by `autoZLimits`
(gridGenerator.ts lines 117-138) and `autoComplexZLimits`
(complexGridGenerator.ts lines 141-162), applied after the collection loop:
no finite values give the fixed fallback [-10, 10]; otherwise sort ascending,
read the values at `floor(n*(100-p)/200)` and `ceil(n*(100+p)/200) - 1`
(an out-of-range read yields undefined, i.e. NaN downstream), and pad both
bounds outward by 10% of their difference. -/
def limitsOf (allValues : List ℚ) (percentile : ℚ) : JsNum × JsNum :=
  if allValues.length = 0 then (.finite (-10), .finite 10)
  else
    let s := sortAsc allValues
    let n : ℚ := (allValues.length : ℚ)
    let lowerIdx : ℤ := ⌊n * (100 - percentile) / 200⌋
    let upperIdx : ℤ := ⌈n * (100 + percentile) / 200⌉ - 1
    let mn := jsGet s lowerIdx
    let mx := jsGet s upperIdx
    let padding := jsMul (jsSub mx mn) (.finite (1 / 10))
    (jsSub mn padding, jsAdd mx padding)

/-- gridGenerator.ts `autoZLimits` (lines 102-138). -/
def autoZLimits (gridData : GridData) (percentile : ℚ) : JsNum × JsNum :=
  limitsOf (collectFinite gridData.z) percentile

/-- complexGridGenerator.ts `autoComplexZLimits` (lines 126-162): the same
computation over the real (height) channel. -/
def autoComplexZLimits (gridData : ComplexGridData) (percentile : ℚ) : JsNum × JsNum :=
  limitsOf (collectFinite gridData.real) percentile

/-- Boolean prefix test on character lists. -/
def prefixOf : List Char → List Char → Bool
  | [], _ => true
  | _ :: _, [] => false
  | a :: as, b :: bs => a = b && prefixOf as bs

/-- The function-name table of the real-mode normalizer (mathParser.ts lines
167-168), in source order. -/
def realFns : List (List Char) :=
  ["sin".data, "cos".data, "tan".data, "asin".data, "acos".data, "atan".data,
   "atan2".data, "sinh".data, "cosh".data, "tanh".data, "exp".data, "log".data,
   "ln".data, "sqrt".data, "abs".data, "ceil".data, "floor".data, "round".data,
   "pow".data, "min".data, "max".data, "mod".data]

/-- Pattern 1 of mathParser.ts `addImplicitMultiplication` (line 163): the
global regex replace of digit-letter pairs `(\d)([a-zA-Z])` by `$1*$2`;
scanning resumes after each match. -/
def rxDigitLetter : List Char → List Char
  | c1 :: c2 :: rest =>
    if c1.isDigit && c2.isAlpha then c1 :: '*' :: c2 :: rxDigitLetter rest
    else c1 :: rxDigitLetter (c2 :: rest)
  | l => l

/-- Pattern 2 of mathParser.ts `addImplicitMultiplication` (lines 171-174):
for one function name, the global replace of `([a-zA-Z0-9])fn\(` by
`$1*fn(`.  `fuel` only bounds the recursion; one unit is spent per consumed
character, so any fuel of at least the list length is exact. -/
def rxBeforeFn (fnTok : List Char) : ℕ → List Char → List Char
  | 0, l => l
  | _ + 1, [] => []
  | fuel + 1, c :: rest =>
    if c.isAlphanum && prefixOf fnTok rest then
      c :: '*' :: (fnTok ++ rxBeforeFn fnTok fuel (rest.drop fnTok.length))
    else c :: rxBeforeFn fnTok fuel rest

/-- Pattern 3 of mathParser.ts `addImplicitMultiplication` (lines 178-190): the
global replace of `([a-zA-Z])([a-zA-Z])(?![a-zA-Z])` through a callback that
keeps the pair unchanged when the second letter starts a known function name or
is one of the constants e, i, and otherwise inserts `*`; either way the match
is consumed. -/
def rxLetterLetter : List Char → List Char
  | c1 :: c2 :: rest =>
    if c1.isAlpha && c2.isAlpha &&
        !(match rest with | r :: _ => r.isAlpha | [] => false) then
      if realFns.any (fun fn => match fn with | f :: _ => f = c2 | [] => false)
          || c2 = 'e' || c2 = 'i' then
        c1 :: c2 :: rxLetterLetter rest
      else c1 :: '*' :: c2 :: rxLetterLetter rest
    else c1 :: rxLetterLetter (c2 :: rest)
  | l => l

/-- Pattern 4a of mathParser.ts `addImplicitMultiplication` (line 193): replace
`\)(\d)` by `)*$1`. -/
def rxParenDigit : List Char → List Char
  | c1 :: c2 :: rest =>
    if c1 = ')' && c2.isDigit then c1 :: '*' :: c2 :: rxParenDigit rest
    else c1 :: rxParenDigit (c2 :: rest)
  | l => l

/-- Pattern 4b of mathParser.ts `addImplicitMultiplication` (line 194): replace
`\)([a-zA-Z])` by `)*$1`. -/
def rxParenLetter : List Char → List Char
  | c1 :: c2 :: rest =>
    if c1 = ')' && c2.isAlpha then c1 :: '*' :: c2 :: rxParenLetter rest
    else c1 :: rxParenLetter (c2 :: rest)
  | l => l

/-- Pattern 4c of mathParser.ts `addImplicitMultiplication` (line 195): replace
`\)\(` by `)*(`. -/
def rxParenParen : List Char → List Char
  | c1 :: c2 :: rest =>
    if c1 = ')' && c2 = '(' then c1 :: '*' :: c2 :: rxParenParen rest
    else c1 :: rxParenParen (c2 :: rest)
  | l => l

/-- mathParser.ts `addImplicitMultiplication` (lines 159-198): the four
regex-replace passes applied in source order (the per-function pass iterates
over the function table in order). -/
def addImplicitMultiplication (expr : String) : String :=
  let r1 := rxDigitLetter expr.data
  let r2 := realFns.foldl (fun acc fn => rxBeforeFn (fn ++ ['(']) (acc.length + 1) acc) r1
  let r3 := rxLetterLetter r2
  let r4 := rxParenParen (rxParenLetter (rxParenDigit r3))
  ⟨r4⟩

/-- The function-name table of the complex-mode normalizer
(complexMathParser.ts lines 22-28), in source order. -/
def complexFns : List (List Char) :=
  ["sin".data, "cos".data, "tan".data, "asin".data, "acos".data, "atan".data,
   "atan2".data, "sinh".data, "cosh".data, "tanh".data, "asinh".data,
   "acosh".data, "atanh".data, "sec".data, "csc".data, "cot".data, "asec".data,
   "acsc".data, "acot".data, "exp".data, "log".data, "log10".data, "log2".data,
   "ln".data, "sqrt".data, "cbrt".data, "abs".data, "ceil".data, "floor".data,
   "round".data, "sign".data, "pow".data, "min".data, "max".data, "mod".data,
   "gcd".data, "lcm".data, "conj".data, "arg".data, "real".data, "imag".data,
   "re".data, "im".data]

/-- The constant table of the complex-mode normalizer (complexMathParser.ts
line 30), in source order. -/
def complexConsts : List (List Char) :=
  ["pi".data, "e".data, "i".data, "PI".data, "E".data, "Infinity".data,
   "NaN".data]

/-- A constant token matches at the head of `l` when its name is a prefix and
the following character (if any) is not alphanumeric (complexMathParser.ts
lines 53-54). -/
def constTokAt (c l : List Char) : Bool :=
  prefixOf c l &&
    (match l.drop c.length with
     | [] => true
     | d :: _ => !d.isAlphanum)

/-- The adjacency test of complexMathParser.ts lines 69-78: digit before
letter, letter before digit, letter before letter, or `)` before `(` or an
alphanumeric character. -/
def needsMultPair (c n : Char) : Bool :=
  (c.isDigit && n.isAlpha) || (c.isAlpha && n.isDigit) ||
  (c.isAlpha && n.isAlpha) || (c = ')' && (n = '(' || n.isAlphanum))

/-- The lookahead of complexMathParser.ts lines 82-98: skip the insertion when
the remaining input starts with a known function call or constant token. -/
def skipTokAt (r : List Char) : Bool :=
  complexFns.any (fun fn => prefixOf (fn ++ ['(']) r) ||
  complexConsts.any (fun c => constTokAt c r)

/-- The scanning loop of complexMathParser.ts `addImplicitMultiplication`
(lines 21-110): at each position copy a whole function-call or constant token
verbatim when one starts there, and otherwise copy one character, inserting `*`
after it when the adjacency test fires and the next position does not start a
function or constant token.  `fuel` only bounds the recursion; one unit is
spent per loop iteration and each iteration consumes at least one character,
so any fuel of at least the list length is exact. -/
def cScan : ℕ → List Char → List Char
  | 0, l => l
  | fuel + 1, l =>
    match complexFns.find? (fun fn => prefixOf (fn ++ ['(']) l) with
    | some fn => (fn ++ ['(']) ++ cScan fuel (l.drop (fn.length + 1))
    | none =>
      match complexConsts.find? (fun c => constTokAt c l) with
      | some c => c ++ cScan fuel (l.drop c.length)
      | none =>
        match l with
        | [] => []
        | [ch] => [ch]
        | ch :: rest =>
          if needsMultPair ch (rest.headD ' ') && !skipTokAt rest then
            ch :: '*' :: cScan fuel rest
          else ch :: cScan fuel rest

/-- complexMathParser.ts `addImplicitMultiplication` (lines 21-110). -/
def complexAddImplicitMultiplication (expr : String) : String :=
  ⟨cScan expr.data.length expr.data⟩

/-- Strip leading and trailing whitespace (JavaScript `String.prototype.trim`). -/
def trimChars (l : List Char) : List Char :=
  ((l.dropWhile Char.isWhitespace).reverse.dropWhile Char.isWhitespace).reverse

/-- `trim` on strings, via `trimChars`. -/
def jsTrim (s : String) : String := ⟨trimChars s.data⟩

/-- Strip an anchored prefix/suffix pair, as the global anchored regexes of
latexConverter.ts lines 14-16 do (`^\\\[|\\\]$` and the `$$`/`$` variants):
a leading occurrence and a trailing occurrence are each removed when present. -/
def stripEnds (pre suf : List Char) (l : List Char) : List Char :=
  let l1 := if prefixOf pre l then l.drop pre.length else l
  if prefixOf suf.reverse l1.reverse then l1.take (l1.length - suf.length) else l1

/-- Global replace of a literal token followed by `\s*` (the
`[/\\sin\s*/g, 'sin']`-style rules of latexConverter.ts): each occurrence and
its trailing whitespace are replaced and scanning resumes after the match.
`fuel` only bounds the recursion (one unit per consumed character suffices). -/
def replaceTokWs (tok rep : List Char) : ℕ → List Char → List Char
  | 0, l => l
  | _ + 1, [] => []
  | fuel + 1, c :: rest =>
    if prefixOf tok (c :: rest) then
      rep ++ replaceTokWs tok rep fuel (((c :: rest).drop tok.length).dropWhile Char.isWhitespace)
    else c :: replaceTokWs tok rep fuel rest

/-- Global replace of a plain literal token (the parenthesis and spacing rules
of latexConverter.ts lines 76-86). -/
def replaceTok (tok rep : List Char) : ℕ → List Char → List Char
  | 0, l => l
  | _ + 1, [] => []
  | fuel + 1, c :: rest =>
    if prefixOf tok (c :: rest) then
      rep ++ replaceTok tok rep fuel ((c :: rest).drop tok.length)
    else c :: replaceTok tok rep fuel rest

/-- latexConverter.ts line 49: global replace of `\sqrt{A}` (A a nonempty run
of non-`}` characters) by `sqrt(A)`. -/
def lxSqrt : ℕ → List Char → List Char
  | 0, l => l
  | _ + 1, [] => []
  | fuel + 1, c :: rest =>
    if prefixOf "\\sqrt\x7b".data (c :: rest) then
      let r1 := (c :: rest).drop 6
      let a := r1.takeWhile (fun ch => ch ≠ '\x7d')
      match r1.drop a.length with
      | '\x7d' :: r2 =>
        if a.isEmpty then c :: lxSqrt fuel rest
        else "sqrt(".data ++ a ++ [')'] ++ lxSqrt fuel r2
      | _ => c :: lxSqrt fuel rest
    else c :: lxSqrt fuel rest

/-- latexConverter.ts line 52: global replace of `\left|A\right|` by `abs(A)`
(the capture is a nonempty run of non-`|` characters, so the run up to the
first `|` must end in `\right`). -/
def lxAbsLR : ℕ → List Char → List Char
  | 0, l => l
  | _ + 1, [] => []
  | fuel + 1, c :: rest =>
    if prefixOf "\\left|".data (c :: rest) then
      let r1 := (c :: rest).drop 6
      let u := r1.takeWhile (fun ch => ch ≠ '|')
      match r1.drop u.length with
      | '|' :: r2 =>
        if 7 ≤ u.length && u.drop (u.length - 6) = "\\right".data then
          "abs(".data ++ u.take (u.length - 6) ++ [')'] ++ lxAbsLR fuel r2
        else c :: lxAbsLR fuel rest
      | _ => c :: lxAbsLR fuel rest
    else c :: lxAbsLR fuel rest

/-- latexConverter.ts line 53: global replace of bare `|A|` by `abs(A)`. -/
def lxAbsBare : ℕ → List Char → List Char
  | 0, l => l
  | _ + 1, [] => []
  | fuel + 1, c :: rest =>
    if c = '|' then
      let u := rest.takeWhile (fun ch => ch ≠ '|')
      match rest.drop u.length with
      | '|' :: r2 =>
        if u.isEmpty then c :: lxAbsBare fuel rest
        else "abs(".data ++ u ++ [')'] ++ lxAbsBare fuel r2
      | _ => c :: lxAbsBare fuel rest
    else c :: lxAbsBare fuel rest

/-- latexConverter.ts line 56: global replace of `\frac{A}{B}` by
`((A)/(B))`. -/
def lxFrac : ℕ → List Char → List Char
  | 0, l => l
  | _ + 1, [] => []
  | fuel + 1, c :: rest =>
    if prefixOf "\\frac\x7b".data (c :: rest) then
      let r1 := (c :: rest).drop 6
      let a := r1.takeWhile (fun ch => ch ≠ '\x7d')
      match r1.drop a.length with
      | '\x7d' :: '\x7b' :: r2 =>
        let b := r2.takeWhile (fun ch => ch ≠ '\x7d')
        match r2.drop b.length with
        | '\x7d' :: r3 =>
          if a.isEmpty || b.isEmpty then c :: lxFrac fuel rest
          else "((".data ++ a ++ ")/(".data ++ b ++ "))".data ++ lxFrac fuel r3
        | _ => c :: lxFrac fuel rest
      | _ => c :: lxFrac fuel rest
    else c :: lxFrac fuel rest

/-- latexConverter.ts line 59: global replace of `^\left{A\right}` by `^(A)`
(the capture is a nonempty non-`}` run, so the run before the first `}` must
end in `\right`). -/
def lxPowLR : ℕ → List Char → List Char
  | 0, l => l
  | _ + 1, [] => []
  | fuel + 1, c :: rest =>
    if prefixOf "^\\left\x7b".data (c :: rest) then
      let r1 := (c :: rest).drop 7
      let u := r1.takeWhile (fun ch => ch ≠ '\x7d')
      match r1.drop u.length with
      | '\x7d' :: r2 =>
        if 7 ≤ u.length && u.drop (u.length - 6) = "\\right".data then
          "^(".data ++ u.take (u.length - 6) ++ [')'] ++ lxPowLR fuel r2
        else c :: lxPowLR fuel rest
      | _ => c :: lxPowLR fuel rest
    else c :: lxPowLR fuel rest

/-- latexConverter.ts line 60: global replace of `^\{A\}` by `^(A)` (the
capture cannot contain `}`, so the run before the first `}` must end in a
backslash). -/
def lxPowBS : ℕ → List Char → List Char
  | 0, l => l
  | _ + 1, [] => []
  | fuel + 1, c :: rest =>
    if prefixOf "^\\\x7b".data (c :: rest) then
      let r1 := (c :: rest).drop 3
      let u := r1.takeWhile (fun ch => ch ≠ '\x7d')
      match r1.drop u.length with
      | '\x7d' :: r2 =>
        if 2 ≤ u.length && u.drop (u.length - 1) = ['\\'] then
          "^(".data ++ u.take (u.length - 1) ++ [')'] ++ lxPowBS fuel r2
        else c :: lxPowBS fuel rest
      | _ => c :: lxPowBS fuel rest
    else c :: lxPowBS fuel rest

/-- latexConverter.ts line 61: global replace of `^{A}` by `^(A)`. -/
def lxPow : ℕ → List Char → List Char
  | 0, l => l
  | _ + 1, [] => []
  | fuel + 1, c :: rest =>
    if prefixOf "^\x7b".data (c :: rest) then
      let r1 := (c :: rest).drop 2
      let u := r1.takeWhile (fun ch => ch ≠ '\x7d')
      match r1.drop u.length with
      | '\x7d' :: r2 =>
        if u.isEmpty then c :: lxPow fuel rest
        else "^(".data ++ u ++ [')'] ++ lxPow fuel r2
      | _ => c :: lxPow fuel rest
    else c :: lxPow fuel rest

/-- latexConverter.ts line 92: global replace of `([a-zA-Z])(\()` by `$1*$2`. -/
def lxLetterParen : List Char → List Char
  | c1 :: c2 :: rest =>
    if c1.isAlpha && c2 = '(' then c1 :: '*' :: c2 :: lxLetterParen rest
    else c1 :: lxLetterParen (c2 :: rest)
  | l => l

/-- latexConverter.ts line 93: global replace of `(\d)(\()` by `$1*$2`. -/
def lxDigitParen : List Char → List Char
  | c1 :: c2 :: rest =>
    if c1.isDigit && c2 = '(' then c1 :: '*' :: c2 :: lxDigitParen rest
    else c1 :: lxDigitParen (c2 :: rest)
  | l => l

/-- Apply one `\name` → `name` style rule (token plus `\s*`). -/
def lxTokWs (tok rep : String) (l : List Char) : List Char :=
  replaceTokWs tok.data rep.data (l.length + 1) l

/-- Apply one plain literal rule. -/
def lxTok (tok rep : String) (l : List Char) : List Char :=
  replaceTok tok.data rep.data (l.length + 1) l

/-- latexConverter.ts `latexToMathjs` (lines 6-110): trim, strip math-mode
delimiters, then apply the ordered replacement table (functions, roots,
absolute values, fractions, powers, Greek letters, constants, parentheses,
spacing, implicit multiplication, leftover backslashes), replace leftover
braces by parentheses, and trim. -/
def latexToMathjs (latex : String) : String :=
  if jsTrim latex = "" then "" else
  let r := (jsTrim latex).data
  let r := stripEnds "\\[".data "\\]".data r
  let r := stripEnds "$$".data "$$".data r
  let r := stripEnds "$".data "$".data r
  let r := lxTokWs "\\sin" "sin" r
  let r := lxTokWs "\\cos" "cos" r
  let r := lxTokWs "\\tan" "tan" r
  let r := lxTokWs "\\cot" "cot" r
  let r := lxTokWs "\\sec" "sec" r
  let r := lxTokWs "\\csc" "csc" r
  let r := lxTokWs "\\arcsin" "asin" r
  let r := lxTokWs "\\arccos" "acos" r
  let r := lxTokWs "\\arctan" "atan" r
  let r := lxTokWs "\\arccot" "acot" r
  let r := lxTokWs "\\arcsec" "asec" r
  let r := lxTokWs "\\arccsc" "acsc" r
  let r := lxTokWs "\\sinh" "sinh" r
  let r := lxTokWs "\\cosh" "cosh" r
  let r := lxTokWs "\\tanh" "tanh" r
  let r := lxTokWs "\\ln" "log" r
  let r := lxTokWs "\\log" "log10" r
  let r := lxTokWs "\\exp" "exp" r
  let r := lxSqrt (r.length + 1) r
  let r := lxAbsLR (r.length + 1) r
  let r := lxAbsBare (r.length + 1) r
  let r := lxFrac (r.length + 1) r
  let r := lxPowLR (r.length + 1) r
  let r := lxPowBS (r.length + 1) r
  let r := lxPow (r.length + 1) r
  let r := lxTokWs "\\pi" "pi" r
  let r := lxTokWs "\\theta" "theta" r
  let r := lxTokWs "\\phi" "phi" r
  let r := lxTokWs "\\alpha" "alpha" r
  let r := lxTokWs "\\beta" "beta" r
  let r := lxTokWs "\\gamma" "gamma" r
  let r := lxTokWs "\\delta" "delta" r
  let r := lxTokWs "\\e" "e" r
  let r := lxTok "\\left(" "(" r
  let r := lxTok "\\right)" ")" r
  let r := lxTok "\\left[" "(" r
  let r := lxTok "\\right]" ")" r
  let r := lxTok "\\," "" r
  let r := lxTok "\\;" "" r
  let r := lxTok "\\:" "" r
  let r := lxTok "\\!" "" r
  let r := lxTok "\\ " "" r
  let r := rxDigitLetter r
  let r := rxParenLetter r
  let r := rxParenParen r
  let r := lxLetterParen r
  let r := lxDigitParen r
  let r := rxParenDigit r
  let r := r.filter (fun c => c ≠ '\\')
  let r := r.map (fun c => if c = '\x7b' then '(' else if c = '\x7d' then ')' else c)
  jsTrim (String.mk r)

/-- A mathjs parse-tree node, as far as the free-variable walks of
mathParser.ts lines 303-336 and complexMathParser.ts lines 224-257 inspect it:
symbol nodes carry a name; function nodes carry a name slot (never walked) and
arguments; operator nodes carry arguments; parenthesis nodes carry content;
constant nodes carry no symbols. -/
inductive MathNode where
  | sym (name : String)
  | fnNode (name : String) (args : List MathNode)
  | opNode (args : List MathNode)
  | constNode
  | paren (content : MathNode)
deriving Repr

/-- The constant-or-function table of the real-mode parser
(mathParser.ts `isConstantOrFunction`, lines 341-355). -/
def realConstFnNames : List String :=
  ["pi", "e", "i", "PI", "E", "true", "false", "null", "Infinity", "NaN",
   "sin", "cos", "tan", "asin", "acos", "atan", "atan2",
   "sinh", "cosh", "tanh", "asinh", "acosh", "atanh",
   "sec", "csc", "cot", "asec", "acsc", "acot",
   "exp", "log", "log10", "log2", "ln", "sqrt", "cbrt",
   "abs", "ceil", "floor", "round", "sign", "pow",
   "min", "max", "mod", "gcd", "lcm"]

/-- The constant-or-function table of the complex-mode parser
(complexMathParser.ts `isConstantOrFunction`, lines 262-277). -/
def complexConstFnNames : List String :=
  realConstFnNames ++ ["conj", "arg", "real", "imag", "re", "im"]

/-- Helper size of a node list (for termination of the traversal). -/
def nodesSize : List MathNode → ℕ
  | [] => 0
  | n :: ns => nodeSize n + nodesSize ns
where
  /-- Size of one node. -/
  nodeSize : MathNode → ℕ
    | .sym _ => 1
    | .fnNode _ args => 1 + nodesSize args
    | .opNode args => 1 + nodesSize args
    | .constNode => 1
    | .paren c => 1 + nodeSize c

/-- The depth-first `traverse` of `extractVariables` (mathParser.ts lines
303-336, identical in complexMathParser.ts lines 224-257), written with an
explicit work list: a symbol node whose name is not a known constant or
function is added to the set (JavaScript `Set` keeps first-insertion order,
modelled by an ordered list without duplicates); a function node has only its
arguments walked, never its name; other nodes have their children walked.
`fuel` only bounds the recursion; every step strictly shrinks the total node
size of the work list, so any fuel of at least `nodesSize` of the work list is
exact. -/
def travWork (isCF : String → Bool) : ℕ → List MathNode → List String → List String
  | 0, _, acc => acc
  | _ + 1, [], acc => acc
  | fuel + 1, .sym n :: rest, acc =>
    travWork isCF fuel rest (if isCF n || acc.contains n then acc else acc ++ [n])
  | fuel + 1, .fnNode _ args :: rest, acc => travWork isCF fuel (args ++ rest) acc
  | fuel + 1, .opNode args :: rest, acc => travWork isCF fuel (args ++ rest) acc
  | fuel + 1, .paren c :: rest, acc => travWork isCF fuel (c :: rest) acc
  | fuel + 1, .constNode :: rest, acc => travWork isCF fuel rest acc

/-- mathParser.ts `extractVariables` (lines 303-336). -/
def extractVariables (node : MathNode) : List String :=
  travWork (fun n => realConstFnNames.contains n) (nodesSize [node]) [node] []

/-- complexMathParser.ts `extractVariables` (lines 224-257). -/
def complexExtractVariables (node : MathNode) : List String :=
  travWork (fun n => complexConstFnNames.contains n) (nodesSize [node]) [node] []

/-- The error taxonomy of the parsers, modelling the messages of the thrown
`Error` values structurally. -/
inductive ParseErr where
  | emptyExpression
  | emptyRHS
  | invalidVariables (names : List String)
deriving DecidableEq, Repr

/-- `extractRHS` (mathParser.ts lines 204-221, identical in
complexMathParser.ts lines 116-133): no `=` returns the trimmed input; with an
`=`, the trimmed part after the first `=` is returned, and an empty remainder
is an error. -/
def extractRHS (expression : String) : Except ParseErr String :=
  let trimmed := jsTrim expression
  match trimmed.data.findIdx? (fun c => c = '=') with
  | none => .ok trimmed
  | some idx =>
    let rhs := jsTrim (String.mk (trimmed.data.drop (idx + 1)))
    if rhs = "" then .error .emptyRHS else .ok rhs

/-- The permitted-variable set of real mode (mathParser.ts line 251). -/
def realValidVars : List String := ["x", "y"]

/-- The permitted-variable set of complex mode (complexMathParser.ts line 163). -/
def complexValidVars : List String := ["z", "x", "y"]

/-- The validation step of `parseExpression` (mathParser.ts lines 250-255) and
`parseComplexExpression` (complexMathParser.ts lines 162-167): filter the
collected variables against the permitted set and fail listing every offending
name when any remain. -/
def validateVars (valid vars : List String) : Except ParseErr (List String) :=
  let invalidVars := vars.filter (fun v => !valid.contains v)
  if invalidVars.isEmpty then .ok vars else .error (.invalidVariables invalidVars)

/-- The compile-and-validate pipeline of mathParser.ts `parseExpression`
(lines 229-268) up to the point the external compiler is invoked: trim and
reject empty input, extract the right-hand side, normalize implicit
multiplication, then — given the parse tree the external mathjs parser
produces for the normalized text — collect and validate the free variables. -/
def parseExpressionVars (expression : String) (parseTree : String → Option MathNode) :
    Except ParseErr (List String) := do
  let trimmed := jsTrim expression
  if trimmed = "" then throw .emptyExpression
  let rhs ← extractRHS trimmed
  let rhs := addImplicitMultiplication rhs
  match parseTree rhs with
  | none => .ok []
  | some node => validateVars realValidVars (extractVariables node)

/-- The same pipeline for complexMathParser.ts `parseComplexExpression`
(lines 141-180). -/
def parseComplexExpressionVars (expression : String) (parseTree : String → Option MathNode) :
    Except ParseErr (List String) := do
  let trimmed := jsTrim expression
  if trimmed = "" then throw .emptyExpression
  let rhs ← extractRHS trimmed
  let rhs := complexAddImplicitMultiplication rhs
  match parseTree rhs with
  | none => .ok []
  | some node => validateVars complexValidVars (complexExtractVariables node)

/-- The finite entries of a grid matrix, in row-major order, as rationals. -/
def finiteEntries (m : List (List JsNum)) : List ℚ :=
  m.flatten.filterMap JsNum.toRat

/-- Claim-side classifier for complex evaluation, following the amended C1
wording: a plain-real result v — finite or not — is returned as (v, 0); a
complex pair is returned as-is unless either component is non-finite or
non-numeric, in which case (NaN, NaN); any other value or a raised error gives
(NaN, NaN). -/
def complexOutcomeAmended : Except EvalErr MathValue → ComplexResult
  | .error _ => ⟨.nan, .nan⟩
  | .ok (.num v) => ⟨v, .finite 0⟩
  | .ok (.cplx reF imF) =>
    if reF.toNum.isFinite && imF.toNum.isFinite then ⟨reF.toNum, imF.toNum⟩
    else ⟨.nan, .nan⟩
  | .ok .other => ⟨.nan, .nan⟩

/-- An index clamped into [0, n-1], as the claim C3 words it. -/
def clampIdx (i : ℤ) (n : ℕ) : ℕ := (max 0 (min i ((n : ℤ) - 1))).toNat

/-- Claim-side auto-limit computation, following the C3 wording: no finite
values give [-10, 10]; otherwise, with the n finite values sorted ascending,
take the values at lower index floor(n(100-p)/200) and upper index
ceil(n(100+p)/200) - 1, both clamped into [0, n-1], and expand each outward by
10% of their difference. -/
def autoLimitsSpecOf (vals : List ℚ) (p : ℚ) : ℚ × ℚ :=
  if vals.length = 0 then (-10, 10)
  else
    let s := sortAsc vals
    let n := vals.length
    let vmin := s.getD (clampIdx ⌊(n : ℚ) * (100 - p) / 200⌋ n) 0
    let vmax := s.getD (clampIdx (⌈(n : ℚ) * (100 + p) / 200⌉ - 1) n) 0
    let pad := (vmax - vmin) * (1 / 10)
    (vmin - pad, vmax + pad)

/-- A pair of adjacent characters that triggers no implicit-multiplication
rule in either normalizer: neither digit-letter, letter-digit, letter-letter,
nor a closing parenthesis before a letter, digit or opening parenthesis. -/
def noMultAdjacency : List Char → Prop
  | c1 :: c2 :: rest => needsMultPair c1 c2 = false ∧ noMultAdjacency (c2 :: rest)
  | _ => True

instance : DecidablePred noMultAdjacency := by
  intro l
  match l with
  | [] => exact .isTrue trivial
  | [_] => exact .isTrue trivial
  | c1 :: c2 :: rest =>
    have := instDecidablePredListCharNoMultAdjacency (c2 :: rest)
    unfold noMultAdjacency
    infer_instance

/-- A single-value grid used as a concrete input for the auto-limit claims. -/
def gridOneFive : GridData :=
  { x := [], y := [], z := [[.finite 5]], zMin := .finite 5, zMax := .finite 5 }

/-- A compiled expression whose evaluation yields the plain number Infinity at
every point (models e.g. compiling "1/0", which mathjs evaluates to the plain
JavaScript number Infinity even in complex mode). -/
def alwaysInfinity : ParsedComplexExpression :=
  ⟨fun _ _ => .ok (.num .posInf)⟩

/-- A compiled real-mode expression evaluating to the finite number x + y. -/
def addExpr : ParsedExpression := ⟨fun x y => .ok (.num (.finite (x + y)))⟩

/-- A compiled real-mode expression throwing at every point. -/
def throwExpr : ParsedExpression := ⟨fun _ _ => .error .thrown⟩

/-- A compiled real-mode expression yielding the plain number Infinity. -/
def realInfExpr : ParsedExpression := ⟨fun _ _ => .ok (.num .posInf)⟩

/-- A compiled real-mode expression yielding the finite complex pair 1 + 2i. -/
def cplxValueExpr : ParsedExpression :=
  ⟨fun _ _ => .ok (.cplx (.num (.finite 1)) (.num (.finite 2)))⟩

/-- A compiled real-mode expression yielding a non-numeric value (models e.g.
the boolean a comparison such as "x < y" evaluates to). -/
def boolExpr : ParsedExpression := ⟨fun _ _ => .ok .other⟩

/-- A compiled complex-mode expression yielding a non-numeric value. -/
def boolComplexExpr : ParsedComplexExpression := ⟨fun _ _ => .ok .other⟩

/-- A compiled complex-mode expression evaluating to the complex pair
(x, -y) at every input point (finite everywhere). -/
def conjExpr : ParsedComplexExpression :=
  ⟨fun x y => .ok (.cplx (.num (.finite x)) (.num (.finite (-y))))⟩

/-- Modelled from the spec: the parse tree the external mathjs parser returns
for "x^2+y^2+w" — a sum operator node over the two power operator nodes and
the symbol w, each power applying to a symbol and a constant (§4.4 step 3
walks exactly this tagged-variant shape). -/
def treePowSum : MathNode :=
  .opNode [.opNode [.opNode [.sym "x", .constNode], .opNode [.sym "y", .constNode]],
           .sym "w"]

/-- Modelled from the spec: the parse tree the external mathjs parser returns
for "((x)/(y))" — parenthesis nodes around a division operator node over the
parenthesised symbols x and y. -/
def treeFracXY : MathNode :=
  .paren (.paren (.opNode [.paren (.sym "x"), .paren (.sym "y")]))

/-- Modelled from the spec: the executable the external compiler returns for
"((x)/(y))" — pointwise real division with IEEE semantics at y = 0 (±Infinity
for a nonzero numerator, NaN for 0/0), which the spec's Point Evaluator then
classifies. -/
def fracCompiled : ParsedExpression :=
  ⟨fun x y =>
    .ok (.num (if y = 0 then (if x = 0 then .nan else if 0 < x then .posInf else .negInf)
               else .finite (x / y)))⟩

/-- A single-value complex grid used as a concrete input for the auto-limit
claims. -/
def cgridOneFive : ComplexGridData :=
  { x := [], y := [], real := [[.finite 5]], imaginary := [[.finite 0]],
    realMin := .finite 5, realMax := .finite 5,
    imaginaryMin := .finite 0, imaginaryMax := .finite 0 }

/-- C1 (amended): for every compiled complex-mode expression and real pair
(x, y), evaluateComplexAt classifies the evaluation outcome as follows — a
plain-real result v is returned as (v, 0) even when v is non-finite; a complex
pair is returned as-is when both components are finite numbers and collapses
to (NaN, NaN) otherwise; any other result value and any raised evaluation
error give (NaN, NaN). -/
theorem c1_evaluateComplexAt_amended (parsed : ParsedComplexExpression) (x y : ℚ) :
    evaluateComplexAt parsed x y = complexOutcomeAmended (parsed.eval x y) := by
  unfold evaluateComplexAt complexOutcomeAmended
  cases parsed.eval x y with
  | error e => rfl
  | ok v => cases v <;> rfl

/-- C1 counterexample: a compiled expression whose evaluation produces the
plain number Infinity — a non-finite numeric outcome — makes evaluateComplexAt
return (Infinity, 0), not the (NaN, NaN) the claim requires. -/
theorem c1_counterexample :
    evaluateComplexAt alwaysInfinity 0 0 = ⟨.posInf, .finite 0⟩ ∧
    evaluateComplexAt alwaysInfinity 0 0 ≠ ⟨.nan, .nan⟩ := by decide

/-- C2: of the four specified normalizer examples, both normalizers map "2x"
to "2*x" and "xy" to "x*y", but "xsin(y)" is mangled to "x*si*n(y)" by the
real-mode normalizer and left unchanged by the complex-mode normalizer, and
"sin(x)cos(y)" becomes "si*n(x)*cos(y)" (real mode) or stays unchanged
(complex mode) — neither output contains "sin(x)*cos(y)". -/
theorem c2_normalizer_on_examples :
    addImplicitMultiplication "2x" = "2*x" ∧
    addImplicitMultiplication "xy" = "x*y" ∧
    complexAddImplicitMultiplication "2x" = "2*x" ∧
    complexAddImplicitMultiplication "xy" = "x*y" ∧
    addImplicitMultiplication "xsin(y)" = "x*si*n(y)" ∧
    complexAddImplicitMultiplication "xsin(y)" = "xsin(y)" ∧
    addImplicitMultiplication "sin(x)cos(y)" = "si*n(x)*cos(y)" ∧
    complexAddImplicitMultiplication "sin(x)cos(y)" = "sin(x)cos(y)" := by decide

/-- C6: real-mode evaluateAt never propagates an exception: a finite numeric
result is returned as-is, a non-finite numeric result gives NaN, a
complex-valued result gives NaN (never its real part), and a raised
evaluation error gives NaN. -/
theorem c6_evaluateAt_never_propagates (parsed : ParsedExpression) (x y : ℚ) :
    (∀ v : JsNum, parsed.eval x y = .ok (.num v) → v.isFinite = true →
      evaluateAt parsed x y = v) ∧
    (∀ v : JsNum, parsed.eval x y = .ok (.num v) → v.isFinite = false →
      evaluateAt parsed x y = .nan) ∧
    (∀ reF imF : JsField, parsed.eval x y = .ok (.cplx reF imF) →
      evaluateAt parsed x y = .nan) ∧
    (∀ err : EvalErr, parsed.eval x y = .error err →
      evaluateAt parsed x y = .nan) := by
  refine ⟨fun v h hf => ?_, fun v h hf => ?_, fun reF imF h => ?_, fun err h => ?_⟩
  · simp [evaluateAt, h, hf]
  · simp [evaluateAt, h, hf]
  · simp [evaluateAt, h]
  · simp [evaluateAt, h]

/-- C6 witness: the four classification branches at concrete expressions. -/
theorem c6_evaluateAt_never_propagates_witness :
    evaluateAt addExpr 4 2 = .finite 6 ∧
    evaluateAt realInfExpr 0 0 = .nan ∧
    evaluateAt cplxValueExpr 0 0 = .nan ∧
    evaluateAt throwExpr 0 0 = .nan := by
  refine ⟨?_, ?_, ?_, ?_⟩
  · have h := (c6_evaluateAt_never_propagates addExpr 4 2).1 (.finite (4 + 2)) rfl rfl
    rw [h]; norm_num
  · exact (c6_evaluateAt_never_propagates realInfExpr 0 0).2.1 .posInf rfl rfl
  · exact (c6_evaluateAt_never_propagates cplxValueExpr 0 0).2.2.1
      (.num (.finite 1)) (.num (.finite 2)) rfl
  · exact (c6_evaluateAt_never_propagates throwExpr 0 0).2.2.2 .thrown rfl

/-- C10: an evaluation result that is neither a plain number nor a complex
object (a boolean from a comparison, a matrix, ...) makes the real-mode
evaluator return NaN and the complex-mode evaluator return (NaN, NaN). -/
theorem c10_non_numeric_to_nan (parsed : ParsedExpression)
    (cparsed : ParsedComplexExpression) (x y : ℚ) :
    (parsed.eval x y = .ok .other → evaluateAt parsed x y = .nan) ∧
    (cparsed.eval x y = .ok .other → evaluateComplexAt cparsed x y = ⟨.nan, .nan⟩) := by
  constructor <;> intro h <;> simp [evaluateAt, evaluateComplexAt, h]

/-- C10 witness: both evaluators at an expression yielding a non-numeric
value. -/
theorem c10_non_numeric_to_nan_witness :
    evaluateAt boolExpr 1 2 = .nan ∧
    evaluateComplexAt boolComplexExpr 1 2 = ⟨.nan, .nan⟩ :=
  ⟨(c10_non_numeric_to_nan boolExpr boolComplexExpr 1 2).1 rfl,
   (c10_non_numeric_to_nan boolExpr boolComplexExpr 1 2).2 rfl⟩

/-- Reading an entry of a mapped grid matrix commutes with the per-entry
function when that function fixes NaN (out-of-range reads default to NaN on
both sides). -/
theorem getD_map_map (f : ℚ → ℚ → JsNum) (g : JsNum → JsNum) (hg : g .nan = .nan)
    (xs ys : List ℚ) (i j : ℕ) :
    ((ys.map (fun yi => xs.map (fun xj => g (f xj yi)))).getD i []).getD j .nan
      = g (((ys.map (fun yi => xs.map (fun xj => f xj yi))).getD i []).getD j .nan) := by
  rcases Nat.lt_or_ge i ys.length with hi | hi
  · have hi1 : i < (ys.map (fun yi => xs.map (fun xj => g (f xj yi)))).length := by
      simpa using hi
    have hi2 : i < (ys.map (fun yi => xs.map (fun xj => f xj yi))).length := by
      simpa using hi
    rw [List.getD_eq_getElem _ _ hi1]
    rw [List.getD_eq_getElem _ _ hi2]
    simp only [List.getElem_map]
    rcases Nat.lt_or_ge j xs.length with hj | hj
    · have hj1 : j < (xs.map (fun xj => g (f xj ys[i]))).length := by simpa using hj
      have hj2 : j < (xs.map (fun xj => f xj ys[i])).length := by simpa using hj
      rw [List.getD_eq_getElem _ _ hj1]
      rw [List.getD_eq_getElem _ _ hj2]
      simp only [List.getElem_map]
    · rw [List.getD_eq_default _ _ (by simpa using hj)]
      rw [List.getD_eq_default _ _ (by simpa using hj)]
      exact hg.symm
  · have e1 : (ys.map (fun yi => xs.map (fun xj => g (f xj yi)))).getD i [] = [] :=
      List.getD_eq_default _ _ (by simpa using hi)
    have e2 : (ys.map (fun yi => xs.map (fun xj => f xj yi))).getD i [] = [] :=
      List.getD_eq_default _ _ (by simpa using hi)
    rw [e1, e2]
    simpa using hg.symm

/-- C9: with a ClipRange {min, max} (min ≤ max) supplied to the grid samplers,
every finite height entry is clamped into [min, max], every non-finite height
entry remains non-finite, and the complex-mode imaginary channel is identical
to the one computed without clipping — for every compiled expression, domain,
resolution, and clip range. -/
theorem c9_clip_height_only (p : ParsedExpression)
    (cp : ParsedComplexExpression) (d : Domain) (res : ℕ) (c : ClipRange)
    (hc : c.min ≤ c.max) :
    (∀ i j q, ((generateGrid p d res none).z.getD i []).getD j .nan = .finite q →
       ((generateGrid p d res (some c)).z.getD i []).getD j .nan
         = .finite (max c.min (min c.max q)) ∧
       c.min ≤ max c.min (min c.max q) ∧ max c.min (min c.max q) ≤ c.max) ∧
    (∀ i j, (((generateGrid p d res none).z.getD i []).getD j .nan).isFinite = false →
       (((generateGrid p d res (some c)).z.getD i []).getD j .nan).isFinite = false) ∧
    (∀ i j q, ((generateComplexGrid cp d res none).real.getD i []).getD j .nan = .finite q →
       ((generateComplexGrid cp d res (some c)).real.getD i []).getD j .nan
         = .finite (max c.min (min c.max q))) ∧
    (∀ i j, (((generateComplexGrid cp d res none).real.getD i []).getD j .nan).isFinite = false →
       (((generateComplexGrid cp d res (some c)).real.getD i []).getD j .nan).isFinite = false) ∧
    (generateComplexGrid cp d res (some c)).imaginary
      = (generateComplexGrid cp d res none).imaginary := by
  have hreal := getD_map_map (fun xj yi => evaluateAt p xj yi) (applyClip (some c))
    rfl (linspace d.xMin d.xMax res) (linspace d.yMin d.yMax res)
  have hcplx := getD_map_map (fun xj yi => (evaluateComplexAt cp xj yi).real)
    (applyClip (some c)) rfl (linspace d.xMin d.xMax res) (linspace d.yMin d.yMax res)
  refine ⟨?_, ?_, ?_, ?_, rfl⟩
  · intro i j q hq
    have h := hreal i j
    simp only [generateGrid, applyClip] at h hq ⊢
    rw [h, hq]
    refine ⟨?_, le_max_left _ _, max_le hc (min_le_left _ _)⟩
    simp [applyClip, JsNum.isFinite, jsMin, jsMax]
  · intro i j hq
    have h := hreal i j
    simp only [generateGrid, applyClip] at h hq ⊢
    rw [h]
    revert hq
    cases ((List.map _ _).getD i []).getD j JsNum.nan <;>
      simp [applyClip, JsNum.isFinite, jsMin, jsMax]
  · intro i j q hq
    have h := hcplx i j
    simp only [generateComplexGrid, applyClip] at h hq ⊢
    rw [h, hq]
    simp [applyClip, JsNum.isFinite, jsMin, jsMax]
  · intro i j hq
    have h := hcplx i j
    simp only [generateComplexGrid, applyClip] at h hq ⊢
    rw [h]
    revert hq
    cases ((List.map _ _).getD i []).getD j JsNum.nan <;>
      simp [applyClip, JsNum.isFinite, jsMin, jsMax]

/-- C9 witness: on [0,1]² at resolution 2 with clip [0, 1/2], the finite
sample 2 at the corner (1,1) of x+y is clamped to 1/2; a non-finite sample
stays non-finite; the imaginary channel of x - yi is untouched by the clip. -/
theorem c9_clip_height_only_witness :
    ((generateGrid addExpr ⟨0, 1, 0, 1⟩ 2 (some ⟨0, 1/2⟩)).z.getD 1 []).getD 1 .nan
      = .finite (1/2) ∧
    (((generateGrid realInfExpr ⟨0, 1, 0, 1⟩ 2 (some ⟨0, 1/2⟩)).z.getD 0 []).getD 0 .nan).isFinite
      = false ∧
    (generateComplexGrid conjExpr ⟨0, 1, 0, 1⟩ 2 (some ⟨0, 1/2⟩)).imaginary
      = (generateComplexGrid conjExpr ⟨0, 1, 0, 1⟩ 2 none).imaginary := by
  have hc : (0 : ℚ) ≤ 1/2 := by norm_num
  refine ⟨?_, ?_, ?_⟩
  · have h := (c9_clip_height_only addExpr conjExpr ⟨0, 1, 0, 1⟩ 2 ⟨0, 1/2⟩ hc).1 1 1 _ rfl
    rw [h.1]
    norm_num [linspace]
  · exact (c9_clip_height_only realInfExpr conjExpr ⟨0, 1, 0, 1⟩ 2 ⟨0, 1/2⟩ hc).2.1 0 0 rfl
  · exact (c9_clip_height_only addExpr conjExpr ⟨0, 1, 0, 1⟩ 2 ⟨0, 1/2⟩ hc).2.2.2.2

/-- Folding the running-minimum update from a finite accumulator computes the
fold of `min` over the finite values. -/
theorem foldl_minStep_finite (l : List JsNum) (q : ℚ) :
    l.foldl minStep (.finite q) = .finite ((l.filterMap JsNum.toRat).foldl min q) := by
  induction l generalizing q with
  | nil => rfl
  | cons v t ih =>
    cases v <;>
      simp [minStep, jsMin, JsNum.isFinite, JsNum.toRat, List.filterMap_cons, ih]

/-- Folding the running-maximum update from a finite accumulator computes the
fold of `max` over the finite values. -/
theorem foldl_maxStep_finite (l : List JsNum) (q : ℚ) :
    l.foldl maxStep (.finite q) = .finite ((l.filterMap JsNum.toRat).foldl max q) := by
  induction l generalizing q with
  | nil => rfl
  | cons v t ih =>
    cases v <;>
      simp [maxStep, jsMax, JsNum.isFinite, JsNum.toRat, List.filterMap_cons, ih]

/-- Folding the running-minimum update from +Infinity: stays +Infinity when no
finite value exists, else folds `min` over the finite values. -/
theorem foldl_minStep_posInf (l : List JsNum) :
    l.foldl minStep .posInf =
      (match l.filterMap JsNum.toRat with
       | [] => JsNum.posInf
       | r :: rs => JsNum.finite (rs.foldl min r)) := by
  induction l with
  | nil => rfl
  | cons v t ih =>
    cases v with
    | finite r =>
      simp [minStep, jsMin, JsNum.isFinite, JsNum.toRat, List.filterMap_cons,
            foldl_minStep_finite]
    | posInf =>
      simpa [minStep, jsMin, JsNum.isFinite, JsNum.toRat, List.filterMap_cons] using ih
    | negInf =>
      simpa [minStep, jsMin, JsNum.isFinite, JsNum.toRat, List.filterMap_cons] using ih
    | nan =>
      simpa [minStep, jsMin, JsNum.isFinite, JsNum.toRat, List.filterMap_cons] using ih

/-- Folding the running-maximum update from -Infinity: stays -Infinity when no
finite value exists, else folds `max` over the finite values. -/
theorem foldl_maxStep_negInf (l : List JsNum) :
    l.foldl maxStep .negInf =
      (match l.filterMap JsNum.toRat with
       | [] => JsNum.negInf
       | r :: rs => JsNum.finite (rs.foldl max r)) := by
  induction l with
  | nil => rfl
  | cons v t ih =>
    cases v with
    | finite r =>
      simp [maxStep, jsMax, JsNum.isFinite, JsNum.toRat, List.filterMap_cons,
            foldl_maxStep_finite]
    | posInf =>
      simpa [maxStep, jsMax, JsNum.isFinite, JsNum.toRat, List.filterMap_cons] using ih
    | negInf =>
      simpa [maxStep, jsMax, JsNum.isFinite, JsNum.toRat, List.filterMap_cons] using ih
    | nan =>
      simpa [maxStep, jsMax, JsNum.isFinite, JsNum.toRat, List.filterMap_cons] using ih

/-- The fold of `min` is a lower bound of the seed and the list. -/
theorem foldl_min_le (rs : List ℚ) (r : ℚ) : ∀ q ∈ r :: rs, rs.foldl min r ≤ q := by
  induction rs generalizing r with
  | nil => intro q hq; simp at hq; simp [hq]
  | cons a t ih =>
    intro q hq
    have hhead : t.foldl min (min r a) ≤ min r a := ih (min r a) _ (List.mem_cons_self _ _)
    rcases List.mem_cons.mp hq with h | h
    · subst h
      exact le_trans hhead (min_le_left _ _)
    rcases List.mem_cons.mp h with h1 | h1
    · subst h1
      exact le_trans hhead (min_le_right _ _)
    · exact ih (min r a) q (List.mem_cons_of_mem _ h1)

/-- The fold of `max` is an upper bound of the seed and the list. -/
theorem foldl_max_le (rs : List ℚ) (r : ℚ) : ∀ q ∈ r :: rs, q ≤ rs.foldl max r := by
  induction rs generalizing r with
  | nil => intro q hq; simp at hq; simp [hq]
  | cons a t ih =>
    intro q hq
    have hhead : max r a ≤ t.foldl max (max r a) := ih (max r a) _ (List.mem_cons_self _ _)
    rcases List.mem_cons.mp hq with h | h
    · subst h
      exact le_trans (le_max_left _ _) hhead
    rcases List.mem_cons.mp h with h1 | h1
    · subst h1
      exact le_trans (le_max_right _ _) hhead
    · exact ih (max r a) q (List.mem_cons_of_mem _ h1)

/-- The fold of `min` is attained: it is the seed or a list element. -/
theorem foldl_min_mem (rs : List ℚ) (r : ℚ) : rs.foldl min r ∈ r :: rs := by
  induction rs generalizing r with
  | nil => simp
  | cons a t ih =>
    have h := ih (min r a)
    rcases List.mem_cons.mp h with h1 | h1
    · rcases min_choice r a with hm | hm <;>
        simp only [List.foldl_cons] <;> rw [h1, hm]
      · exact List.mem_cons_self _ _
      · exact List.mem_cons_of_mem _ (List.mem_cons_self _ _)
    · exact List.mem_cons_of_mem _ (List.mem_cons_of_mem _ h1)

/-- The fold of `max` is attained: it is the seed or a list element. -/
theorem foldl_max_mem (rs : List ℚ) (r : ℚ) : rs.foldl max r ∈ r :: rs := by
  induction rs generalizing r with
  | nil => simp
  | cons a t ih =>
    have h := ih (max r a)
    rcases List.mem_cons.mp h with h1 | h1
    · rcases max_choice r a with hm | hm <;>
        simp only [List.foldl_cons] <;> rw [h1, hm]
      · exact List.mem_cons_self _ _
      · exact List.mem_cons_of_mem _ (List.mem_cons_self _ _)
    · exact List.mem_cons_of_mem _ (List.mem_cons_of_mem _ h1)

/-- C5: for every compiled real-mode expression and domain, at resolution ≥ 2
the grid sampler produces xs and ys of length `resolution` with
`x[i] = xMin + i * (xMax - xMin) / (resolution - 1)` (and likewise for y), a
resolution × resolution matrix with `z[i][j]` equal to the point-evaluator
result at `(xs[j], ys[i])`, and zMin/zMax equal to the minimum/maximum over
the finite entries only, both defaulting to 0 when no finite entry exists;
for resolution < 2 each axis is the single start value. -/
theorem c5_generateGrid_contract (p : ParsedExpression) (d : Domain) (res : ℕ) :
    (2 ≤ res →
      (generateGrid p d res none).x.length = res ∧
      (generateGrid p d res none).y.length = res ∧
      (generateGrid p d res none).z.length = res ∧
      (∀ row ∈ (generateGrid p d res none).z, row.length = res) ∧
      (∀ i, i < res →
        (generateGrid p d res none).x.getD i 0
          = d.xMin + (d.xMax - d.xMin) / ((res : ℚ) - 1) * (i : ℚ) ∧
        (generateGrid p d res none).y.getD i 0
          = d.yMin + (d.yMax - d.yMin) / ((res : ℚ) - 1) * (i : ℚ)) ∧
      (∀ i j, i < res → j < res →
        ((generateGrid p d res none).z.getD i []).getD j .nan
          = evaluateAt p ((generateGrid p d res none).x.getD j 0)
              ((generateGrid p d res none).y.getD i 0))) ∧
    (res < 2 →
      (generateGrid p d res none).x = [d.xMin] ∧
      (generateGrid p d res none).y = [d.yMin]) ∧
    (finiteEntries (generateGrid p d res none).z = [] →
      (generateGrid p d res none).zMin = .finite 0 ∧
      (generateGrid p d res none).zMax = .finite 0) ∧
    (∀ r rs, finiteEntries (generateGrid p d res none).z = r :: rs →
      (generateGrid p d res none).zMin = .finite (rs.foldl min r) ∧
      (generateGrid p d res none).zMax = .finite (rs.foldl max r) ∧
      (∀ q ∈ finiteEntries (generateGrid p d res none).z,
        rs.foldl min r ≤ q ∧ q ≤ rs.foldl max r) ∧
      rs.foldl min r ∈ finiteEntries (generateGrid p d res none).z ∧
      rs.foldl max r ∈ finiteEntries (generateGrid p d res none).z) := by
  have hlin : ∀ a b : ℚ, ¬ res < 2 → (linspace a b res).length = res := by
    intro a b h
    rw [linspace, if_neg h]
    rw [List.length_map]
    exact List.length_range res
  have hlinD : ∀ a b : ℚ, ¬ res < 2 → ∀ i, i < res →
      (linspace a b res).getD i 0 = a + (b - a) / ((res : ℚ) - 1) * (i : ℚ) := by
    intro a b h i hi
    rw [linspace, if_neg h]
    rw [List.getD_eq_getElem _ _ (by simpa using hi)]
    simp [List.getElem_map]
  have hzmin0 : (generateGrid p d res none).zMin =
      (match finiteEntries (generateGrid p d res none).z with
       | [] => JsNum.finite 0
       | r :: rs => JsNum.finite (rs.foldl min r)) := by
    simp only [generateGrid]
    rw [← List.foldl_flatten minStep JsNum.posInf]
    rw [foldl_minStep_posInf]
    simp only [finiteEntries, generateGrid]
    rcases h : (((linspace d.yMin d.yMax res).map (fun yi =>
        (linspace d.xMin d.xMax res).map (fun xj =>
          applyClip none (evaluateAt p xj yi)))).flatten.filterMap JsNum.toRat)
        with _ | ⟨r, rs⟩ <;>
      simp [h, JsNum.isFinite]
  have hzmax0 : (generateGrid p d res none).zMax =
      (match finiteEntries (generateGrid p d res none).z with
       | [] => JsNum.finite 0
       | r :: rs => JsNum.finite (rs.foldl max r)) := by
    simp only [generateGrid]
    rw [← List.foldl_flatten maxStep JsNum.negInf]
    rw [foldl_maxStep_negInf]
    simp only [finiteEntries, generateGrid]
    rcases h : (((linspace d.yMin d.yMax res).map (fun yi =>
        (linspace d.xMin d.xMax res).map (fun xj =>
          applyClip none (evaluateAt p xj yi)))).flatten.filterMap JsNum.toRat)
        with _ | ⟨r, rs⟩ <;>
      simp [h, JsNum.isFinite]
  refine ⟨fun h2 => ?_, fun h2 => ?_, fun h => ?_, fun r rs h => ?_⟩
  · have hn2 : ¬ res < 2 := by omega
    refine ⟨hlin _ _ hn2, hlin _ _ hn2, ?_, ?_, fun i hi => ⟨hlinD _ _ hn2 i hi, hlinD _ _ hn2 i hi⟩, ?_⟩
    · show ((linspace d.yMin d.yMax res).map _).length = res
      rw [List.length_map]
      exact hlin _ _ hn2
    · intro row hrow
      simp only [generateGrid] at hrow
      obtain ⟨yi, _, hrow⟩ := List.mem_map.mp hrow
      rw [← hrow, List.length_map]
      exact hlin _ _ hn2
    · intro i j hi hj
      have hyl : i < (linspace d.yMin d.yMax res).length := by rw [hlin _ _ hn2]; exact hi
      have hxl : j < (linspace d.xMin d.xMax res).length := by rw [hlin _ _ hn2]; exact hj
      show (((linspace d.yMin d.yMax res).map fun yi =>
          (linspace d.xMin d.xMax res).map fun xj =>
            applyClip none (evaluateAt p xj yi)).getD i []).getD j .nan = _
      have hyl2 : i < ((linspace d.yMin d.yMax res).map (fun yi =>
          (linspace d.xMin d.xMax res).map (fun xj =>
            applyClip none (evaluateAt p xj yi)))).length := by simpa using hyl
      rw [List.getD_eq_getElem _ _ hyl2]
      simp only [List.getElem_map]
      have hxl2 : j < ((linspace d.xMin d.xMax res).map (fun xj =>
          applyClip none (evaluateAt p xj (linspace d.yMin d.yMax res)[i]))).length := by
        simpa using hxl
      rw [List.getD_eq_getElem _ _ hxl2]
      simp only [List.getElem_map]
      show applyClip none _
        = evaluateAt p ((linspace d.xMin d.xMax res).getD j 0)
            ((linspace d.yMin d.yMax res).getD i 0)
      rw [List.getD_eq_getElem _ _ hxl, List.getD_eq_getElem _ _ hyl]
      rfl
  · have e : ∀ a b : ℚ, linspace a b res = [a] := by
      intro a b; rw [linspace, if_pos h2]
    exact ⟨e _ _, e _ _⟩
  · rw [hzmin0, hzmax0, h]
    exact ⟨rfl, rfl⟩
  · rw [hzmin0, hzmax0, h]
    exact ⟨rfl, rfl,
      fun q hq => ⟨foldl_min_le rs r q hq, foldl_max_le rs r q hq⟩,
      foldl_min_mem rs r, foldl_max_mem rs r⟩

/-- C5 witness: the sampler for x + y on [0,1]² at resolution 2 (and the
single-point axis at resolution 1). -/
theorem c5_generateGrid_contract_witness :
    (generateGrid addExpr ⟨0, 1, 0, 1⟩ 2 none).x.length = 2 ∧
    ((generateGrid addExpr ⟨0, 1, 0, 1⟩ 2 none).z.getD 1 []).getD 0 .nan
      = evaluateAt addExpr ((generateGrid addExpr ⟨0, 1, 0, 1⟩ 2 none).x.getD 0 0)
          ((generateGrid addExpr ⟨0, 1, 0, 1⟩ 2 none).y.getD 1 0) ∧
    (generateGrid addExpr ⟨0, 1, 0, 1⟩ 1 none).x = [0] ∧
    (generateGrid addExpr ⟨0, 1, 0, 1⟩ 2 none).zMin = .finite 0 ∧
    (generateGrid addExpr ⟨0, 1, 0, 1⟩ 2 none).zMax = .finite 2 := by
  have h2 : (2 : ℕ) ≤ 2 := le_refl 2
  refine ⟨((c5_generateGrid_contract addExpr ⟨0, 1, 0, 1⟩ 2).1 h2).1, ?_, ?_, ?_, ?_⟩
  · exact ((c5_generateGrid_contract addExpr ⟨0, 1, 0, 1⟩ 2).1 h2).2.2.2.2.2
      1 0 (by norm_num) (by norm_num)
  · exact ((c5_generateGrid_contract addExpr ⟨0, 1, 0, 1⟩ 1).2.1 (by norm_num)).1
  · have h := (c5_generateGrid_contract addExpr ⟨0, 1, 0, 1⟩ 2).2.2.2 0 [1, 1, 2] ?hfe
    case hfe =>
      simp [finiteEntries, generateGrid, linspace, applyClip, evaluateAt, addExpr,
            JsNum.toRat, JsNum.isFinite, List.range_succ]
      norm_num
    rw [h.1]
    simp only [List.foldl_cons, List.foldl_nil, JsNum.finite.injEq]
    norm_num [min_def]
  · have h := (c5_generateGrid_contract addExpr ⟨0, 1, 0, 1⟩ 2).2.2.2 0 [1, 1, 2] ?hfe2
    case hfe2 =>
      simp [finiteEntries, generateGrid, linspace, applyClip, evaluateAt, addExpr,
            JsNum.toRat, JsNum.isFinite, List.range_succ]
      norm_num
    rw [h.2.1]
    simp only [List.foldl_cons, List.foldl_nil, JsNum.finite.injEq]
    norm_num [max_def]

/-- Insertion keeps one more element. -/
theorem insertAsc_length (a : ℚ) (l : List ℚ) : (insertAsc a l).length = l.length + 1 := by
  induction l with
  | nil => rfl
  | cons b bs ih =>
    rw [insertAsc]
    split <;> simp [ih]

/-- The ascending sort keeps the length. -/
theorem sortAsc_length (l : List ℚ) : (sortAsc l).length = l.length := by
  induction l with
  | nil => rfl
  | cons a as ih => simp [sortAsc, insertAsc_length, ih]

/-- For percentiles within [0, 100] the unclamped indices the code reads are
already inside [0, n-1], so the percentile-limit computation agrees with the
claim-side clamped-index formula. -/
theorem limitsOf_eq_spec (vals : List ℚ) (p : ℚ) (h0 : 0 ≤ p) (h100 : p ≤ 100) :
    limitsOf vals p =
      (.finite (autoLimitsSpecOf vals p).1, .finite (autoLimitsSpecOf vals p).2) := by
  rw [limitsOf, autoLimitsSpecOf]
  by_cases hn : vals.length = 0
  · simp [hn]
  · have hn1 : 1 ≤ vals.length := Nat.one_le_iff_ne_zero.mpr hn
    have hnq : (1 : ℚ) ≤ (vals.length : ℚ) := by exact_mod_cast hn1
    have hnpos : (0 : ℚ) < (vals.length : ℚ) := by linarith
    set n := vals.length with hndef
    set lo : ℤ := ⌊(n : ℚ) * (100 - p) / 200⌋ with hlodef
    set hi : ℤ := ⌈(n : ℚ) * (100 + p) / 200⌉ - 1 with hhidef
    have hlo0 : 0 ≤ lo := Int.floor_nonneg.mpr
      (div_nonneg (mul_nonneg (by positivity) (by linarith)) (by norm_num))
    have hlolt : lo < (n : ℤ) := by
      rw [hlodef]
      rw [Int.floor_lt]
      push_cast
      rw [div_lt_iff₀ (by norm_num : (0 : ℚ) < 200)]
      nlinarith
    have hhi0 : 0 ≤ hi := by
      rw [hhidef]
      have : 0 < ⌈(n : ℚ) * (100 + p) / 200⌉ := by
        rw [Int.lt_ceil]
        push_cast
        positivity
      omega
    have hhilt : hi < (n : ℤ) := by
      rw [hhidef]
      have : ⌈(n : ℚ) * (100 + p) / 200⌉ ≤ (n : ℤ) := by
        rw [Int.ceil_le]
        push_cast
        rw [div_le_iff₀ (by norm_num : (0 : ℚ) < 200)]
        nlinarith
      omega
    have hslen : (sortAsc vals).length = n := sortAsc_length vals
    have hlotn : lo.toNat < (sortAsc vals).length := by
      rw [hslen]; omega
    have hhitn : hi.toNat < (sortAsc vals).length := by
      rw [hslen]; omega
    have hgetlo : jsGet (sortAsc vals) lo = .finite ((sortAsc vals).getD lo.toNat 0) := by
      rw [jsGet, dif_pos ⟨hlo0, hlotn⟩, List.getD_eq_getElem _ _ hlotn]
      rfl
    have hgethi : jsGet (sortAsc vals) hi = .finite ((sortAsc vals).getD hi.toNat 0) := by
      rw [jsGet, dif_pos ⟨hhi0, hhitn⟩, List.getD_eq_getElem _ _ hhitn]
      rfl
    have hclamplo : clampIdx lo n = lo.toNat := by
      rw [clampIdx]
      omega
    have hclamphi : clampIdx hi n = hi.toNat := by
      rw [clampIdx]
      omega
    rw [if_neg hn, if_neg hn]
    simp only [← hlodef, ← hhidef, hgetlo, hgethi, hclamplo, hclamphi,
               jsSub, jsMul, jsAdd]

/-- C3 (amended): autoZLimits and autoComplexZLimits agree with the claimed
formula — fallback [-10, 10] with no finite values, else the sorted values at
the clamped lower/upper percentile indices padded outward by 10% of their
difference — for every grid and every percentile p with 0 ≤ p ≤ 100. -/
theorem c3_autoLimits_clamped (g : GridData) (cg : ComplexGridData) (p : ℚ)
    (h0 : 0 ≤ p) (h100 : p ≤ 100) :
    autoZLimits g p = (.finite (autoLimitsSpecOf (collectFinite g.z) p).1,
                       .finite (autoLimitsSpecOf (collectFinite g.z) p).2) ∧
    autoComplexZLimits cg p
      = (.finite (autoLimitsSpecOf (collectFinite cg.real) p).1,
         .finite (autoLimitsSpecOf (collectFinite cg.real) p).2) :=
  ⟨limitsOf_eq_spec _ p h0 h100, limitsOf_eq_spec _ p h0 h100⟩

/-- C3 counterexample: on a grid holding the single finite value 5 with
percentile 150, the claimed clamped-index formula yields (5, 5), but
autoZLimits reads out-of-range indices (floor(1·(100-150)/200) = -1 and
ceil(1·(100+150)/200) - 1 = 1) and returns (NaN, NaN) — the code never clamps. -/
theorem c3_counterexample :
    autoZLimits gridOneFive 150 = (.nan, .nan) ∧
    autoLimitsSpecOf (collectFinite gridOneFive.z) 150 = (5, 5) ∧
    autoZLimits gridOneFive 150
      ≠ (.finite (autoLimitsSpecOf (collectFinite gridOneFive.z) 150).1,
         .finite (autoLimitsSpecOf (collectFinite gridOneFive.z) 150).2) := by
  have hcoll : collectFinite gridOneFive.z = [5] := by
    simp [collectFinite, gridOneFive, JsNum.isFinite, JsNum.toRat]
  have hc : (⌈(5 : ℚ) / 4⌉ : ℤ) = 2 := by norm_num [Int.ceil_eq_iff]
  have h1 : autoZLimits gridOneFive 150 = (.nan, .nan) := by
    rw [autoZLimits, hcoll, limitsOf]
    norm_num [sortAsc, insertAsc]
    rw [hc]
    norm_num [jsGet, jsSub, jsMul, jsAdd]
  have h2 : autoLimitsSpecOf (collectFinite gridOneFive.z) 150 = (5, 5) := by
    rw [hcoll, autoLimitsSpecOf]
    norm_num [sortAsc, insertAsc]
    rw [hc]
    norm_num [clampIdx]
  refine ⟨h1, h2, ?_⟩
  rw [h1, h2]
  decide

/-- C3 witness: the single-value grids at percentile 95 give exactly (5, 5)
on both the real and the complex auto-limit paths. -/
theorem c3_autoLimits_clamped_witness :
    autoZLimits gridOneFive 95 = (.finite 5, .finite 5) ∧
    autoComplexZLimits cgridOneFive 95 = (.finite 5, .finite 5) := by
  have h := c3_autoLimits_clamped gridOneFive cgridOneFive 95 (by norm_num) (by norm_num)
  have hcoll : collectFinite gridOneFive.z = [5] := by
    simp [collectFinite, gridOneFive, JsNum.isFinite, JsNum.toRat]
  have hcoll2 : collectFinite cgridOneFive.real = [5] := by
    simp [collectFinite, cgridOneFive, JsNum.isFinite, JsNum.toRat]
  have hc : (⌈(39 : ℚ) / 40⌉ : ℤ) = 1 := by norm_num [Int.ceil_eq_iff]
  have hspec : autoLimitsSpecOf [5] 95 = (5, 5) := by
    rw [autoLimitsSpecOf]
    norm_num [sortAsc, insertAsc]
    rw [hc]
    norm_num [clampIdx]
  constructor
  · rw [h.1, hcoll, hspec]
  · rw [h.2, hcoll2, hspec]

/-- The tail of an adjacency-free character list is adjacency-free. -/
theorem noMultAdjacency_tail (c : Char) (t : List Char)
    (h : noMultAdjacency (c :: t)) : noMultAdjacency t := by
  cases t with
  | nil => trivial
  | cons a b => exact h.2

/-- A prefix match of a token with two leading characters forces the first two
characters of the scanned list. -/
theorem prefixOf_cons₂ {a b : Char} {t l : List Char}
    (h : prefixOf (a :: b :: t) l = true) : ∃ rest, l = a :: b :: rest := by
  cases l with
  | nil => simp [prefixOf] at h
  | cons x xs =>
    cases xs with
    | nil => simp [prefixOf] at h
    | cons y ys =>
      simp only [prefixOf, Bool.and_eq_true, decide_eq_true_eq] at h
      exact ⟨ys, by rw [h.1, h.2.1]⟩

/-- Two adjacent letters always trigger the adjacency test. -/
theorem needsMultPair_alpha (a b : Char) (ha : a.isAlpha = true)
    (hb : b.isAlpha = true) : needsMultPair a b = true := by
  simp [needsMultPair, ha, hb]

/-- Every function name in the real-mode table starts with a letter. -/
theorem realFns_alpha_head :
    ∀ fn ∈ realFns,
      (match fn with | a :: _ => a.isAlpha | [] => false) = true := by decide

/-- Every function name in the complex-mode table starts with two letters. -/
theorem complexFns_two_alpha :
    ∀ fn ∈ complexFns,
      (match fn with | a :: b :: _ => a.isAlpha && b.isAlpha | _ => false) = true := by
  decide

/-- Every constant in the complex-mode table is one character long or starts
with two letters. -/
theorem complexConsts_shape :
    ∀ c ∈ complexConsts,
      (match c with
       | [_] => true
       | a :: b :: _ => a.isAlpha && b.isAlpha
       | [] => false) = true := by decide

/-- Pattern 1 is the identity on adjacency-free input. -/
theorem rxDigitLetter_fix (l : List Char) (h : noMultAdjacency l) :
    rxDigitLetter l = l := by
  induction l with
  | nil => rfl
  | cons c1 t ih =>
    cases t with
    | nil => rfl
    | cons c2 rest =>
      obtain ⟨hp, hrest⟩ := h
      have hcond : (c1.isDigit && c2.isAlpha) = false := by
        cases hd : c1.isDigit <;> cases ha : c2.isAlpha <;>
          simp_all [needsMultPair]
      rw [rxDigitLetter, if_neg (by simp [hcond]), ih hrest]

/-- Pattern 4a is the identity on adjacency-free input. -/
theorem rxParenDigit_fix (l : List Char) (h : noMultAdjacency l) :
    rxParenDigit l = l := by
  induction l with
  | nil => rfl
  | cons c1 t ih =>
    cases t with
    | nil => rfl
    | cons c2 rest =>
      obtain ⟨hp, hrest⟩ := h
      have hcond : ¬(c1 = ')' ∧ c2.isDigit = true) := by
        rintro ⟨rfl, hd⟩
        simp [needsMultPair, hd, Char.isAlphanum] at hp
      rw [rxParenDigit, if_neg (by simpa using hcond), ih hrest]

/-- Pattern 4b is the identity on adjacency-free input. -/
theorem rxParenLetter_fix (l : List Char) (h : noMultAdjacency l) :
    rxParenLetter l = l := by
  induction l with
  | nil => rfl
  | cons c1 t ih =>
    cases t with
    | nil => rfl
    | cons c2 rest =>
      obtain ⟨hp, hrest⟩ := h
      have hcond : ¬(c1 = ')' ∧ c2.isAlpha = true) := by
        rintro ⟨rfl, ha⟩
        simp [needsMultPair, ha, Char.isAlphanum] at hp
      rw [rxParenLetter, if_neg (by simpa using hcond), ih hrest]

/-- Pattern 4c is the identity on adjacency-free input. -/
theorem rxParenParen_fix (l : List Char) (h : noMultAdjacency l) :
    rxParenParen l = l := by
  induction l with
  | nil => rfl
  | cons c1 t ih =>
    cases t with
    | nil => rfl
    | cons c2 rest =>
      obtain ⟨hp, hrest⟩ := h
      have hcond : ¬(c1 = ')' ∧ c2 = '(') := by
        rintro ⟨rfl, rfl⟩
        simp [needsMultPair] at hp
      rw [rxParenParen, if_neg (by simpa using hcond), ih hrest]

/-- Pattern 3 is the identity on adjacency-free input. -/
theorem rxLetterLetter_fix (l : List Char) (h : noMultAdjacency l) :
    rxLetterLetter l = l := by
  induction l with
  | nil => rfl
  | cons c1 t ih =>
    cases t with
    | nil => rfl
    | cons c2 rest =>
      obtain ⟨hp, hrest⟩ := h
      have hcond : (c1.isAlpha && c2.isAlpha) = false := by
        cases ha : c1.isAlpha <;> cases hb : c2.isAlpha <;>
          simp_all [needsMultPair]
      rw [rxLetterLetter.eq_def]
      simp only [hcond, Bool.false_and, Bool.false_eq_true, if_false]
      exact congrArg (c1 :: ·) (ih hrest)

/-- The per-function pattern-2 pass is the identity on adjacency-free input
when the function token starts with a letter. -/
theorem rxBeforeFn_fix (a : Char) (tok : List Char) (ha : a.isAlpha = true) :
    ∀ fuel l, noMultAdjacency l → rxBeforeFn (a :: tok) fuel l = l := by
  intro fuel
  induction fuel with
  | zero => intro l _; rfl
  | succ fuel ih =>
    intro l h
    cases l with
    | nil => rfl
    | cons c rest =>
      have hcond : ¬(c.isAlphanum = true ∧ prefixOf (a :: tok) rest = true) := by
        rintro ⟨hc, hpre⟩
        cases rest with
        | nil => simp [prefixOf] at hpre
        | cons r rs =>
          have hr : a = r := by
            simp only [prefixOf, Bool.and_eq_true, decide_eq_true_eq] at hpre
            exact hpre.1
          have hpair : needsMultPair c r = true := by
            have hcc : c.isAlpha = true ∨ c.isDigit = true := by
              simpa [Char.isAlphanum, Bool.or_eq_true] using hc
            rcases hcc with h1 | h1 <;> simp [needsMultPair, h1, ← hr, ha]
          have hfalse := h.1
          simp_all
      rw [rxBeforeFn, if_neg (by simpa using hcond)]
      rw [ih rest (noMultAdjacency_tail _ _ h)]

/-- A fold whose step fixes the accumulator is the identity. -/
theorem foldl_id {α β : Type} (l : List α) (f : β → α → β) (b : β)
    (h : ∀ a ∈ l, f b a = b) : l.foldl f b = b := by
  induction l with
  | nil => rfl
  | cons a t ih =>
    rw [List.foldl_cons, h a (List.mem_cons_self _ _)]
    exact ih (fun x hx => h x (List.mem_cons_of_mem _ hx))

/-- The real-mode regex normalizer is the identity on adjacency-free input. -/
theorem addImplicitMultiplication_fix (s : String) (h : noMultAdjacency s.data) :
    addImplicitMultiplication s = s := by
  have hstep : ∀ fn ∈ realFns,
      rxBeforeFn (fn ++ ['(']) (s.data.length + 1) s.data = s.data := by
    intro fn hfn
    have hhead := realFns_alpha_head fn hfn
    cases fn with
    | nil => simp at hhead
    | cons a t =>
      exact rxBeforeFn_fix a (t ++ ['(']) (by simpa using hhead) _ s.data h
  simp only [addImplicitMultiplication]
  rw [rxDigitLetter_fix _ h, foldl_id _ _ _ hstep, rxLetterLetter_fix _ h,
      rxParenDigit_fix _ h, rxParenLetter_fix _ h, rxParenParen_fix _ h]

/-- One unrolling of the scanner loop. -/
theorem cScan_succ (fuel : ℕ) (l : List Char) :
    cScan (fuel + 1) l =
      match complexFns.find? (fun fn => prefixOf (fn ++ ['(']) l) with
      | some fn => (fn ++ ['(']) ++ cScan fuel (l.drop (fn.length + 1))
      | none =>
        match complexConsts.find? (fun c => constTokAt c l) with
        | some c => c ++ cScan fuel (l.drop c.length)
        | none =>
          match l with
          | [] => []
          | [ch] => [ch]
          | ch :: rest =>
            if needsMultPair ch (rest.headD ' ') && !skipTokAt rest then
              ch :: '*' :: cScan fuel rest
            else ch :: cScan fuel rest := rfl

/-- The complex-mode scanner is the identity on adjacency-free input, for any
fuel. -/
theorem cScan_fix : ∀ fuel l, noMultAdjacency l → cScan fuel l = l := by
  intro fuel
  induction fuel with
  | zero => intro l _; rfl
  | succ fuel ih =>
    intro l h
    cases l with
    | nil => rfl
    | cons ch rest =>
      have hfn : complexFns.find? (fun fn => prefixOf (fn ++ ['(']) (ch :: rest)) = none := by
        rw [List.find?_eq_none]
        intro fn hfn
        simp only [Bool.not_eq_true]
        cases hpre : prefixOf (fn ++ ['(']) (ch :: rest)
        · rfl
        · exfalso
          have hshape := complexFns_two_alpha fn hfn
          cases fn with
          | nil => simp at hshape
          | cons a t =>
            cases t with
            | nil => simp at hshape
            | cons b t2 =>
              simp only [List.cons_append] at hpre
              obtain ⟨rest2, heq⟩ := prefixOf_cons₂ hpre
              rw [heq] at h
              have hab := h.1
              simp only [Bool.and_eq_true] at hshape
              rw [needsMultPair_alpha a b hshape.1 hshape.2] at hab
              simp at hab
      rw [cScan_succ]
      rw [hfn]
      rcases hc : complexConsts.find? (fun c => constTokAt c (ch :: rest)) with _ | c
      · cases rest with
        | nil => rfl
        | cons n rs =>
          have hpair : needsMultPair ch n = false := h.1
          simp only [List.headD_cons, hpair, Bool.false_and, Bool.false_eq_true, if_false]
          exact congrArg (ch :: ·) (ih _ h.2)
      · have hmem := List.mem_of_find?_eq_some hc
        have hpred := List.find?_some hc
        have hshape := complexConsts_shape c hmem
        have hpre : prefixOf c (ch :: rest) = true := by
          simp only [constTokAt, Bool.and_eq_true] at hpred
          exact hpred.1
        cases c with
        | nil => simp at hshape
        | cons c0 ct =>
          cases ct with
          | nil =>
            have hc0 : c0 = ch := by
              simp only [prefixOf, Bool.and_eq_true, decide_eq_true_eq] at hpre
              exact hpre.1
            subst hc0
            show c0 :: cScan fuel rest = c0 :: rest
            exact congrArg (c0 :: ·) (ih _ (noMultAdjacency_tail _ _ h))
          | cons c1 ct2 =>
            exfalso
            obtain ⟨rest2, heq⟩ := prefixOf_cons₂ hpre
            rw [heq] at h
            have hab := h.1
            simp only [Bool.and_eq_true] at hshape
            rw [needsMultPair_alpha c0 c1 hshape.1 hshape.2] at hab
            simp at hab

/-- The complex-mode scan normalizer is the identity on adjacency-free input. -/
theorem complexAddImplicitMultiplication_fix (s : String)
    (h : noMultAdjacency s.data) : complexAddImplicitMultiplication s = s := by
  rw [complexAddImplicitMultiplication, cScan_fix _ _ h]

/-- C4 (amended): a string with no implicit-multiplication adjacency left (no
digit-letter, letter-letter, letter-digit pair, and no closing parenthesis
directly before a letter, digit or opening parenthesis) is returned unchanged
by both normalizers; idempotence on arbitrary inputs fails (see the
counterexample). -/
theorem c4_normalizer_fixpoint (s : String) (h : noMultAdjacency s.data) :
    addImplicitMultiplication s = s ∧ complexAddImplicitMultiplication s = s :=
  ⟨addImplicitMultiplication_fix s h, complexAddImplicitMultiplication_fix s h⟩

/-- C4 counterexample: the real-mode normalizer is not idempotent — "xyz"
normalizes to "xy*z" (the letter-pair pass consumes two letters per match),
which normalizes again to "x*y*z". -/
theorem c4_counterexample :
    addImplicitMultiplication (addImplicitMultiplication "xyz")
      ≠ addImplicitMultiplication "xyz" ∧
    addImplicitMultiplication "xyz" = "xy*z" ∧
    addImplicitMultiplication "xy*z" = "x*y*z" := by decide

/-- C4 witness: an already-explicit expression string is fixed by both
normalizers. -/
theorem c4_normalizer_fixpoint_witness :
    addImplicitMultiplication "2*x + y^2" = "2*x + y^2" ∧
    complexAddImplicitMultiplication "2*x + y^2" = "2*x + y^2" :=
  ⟨(c4_normalizer_fixpoint "2*x + y^2" (by decide)).1,
   (c4_normalizer_fixpoint "2*x + y^2" (by decide)).2⟩

/-- Every name the traversal adds to the accumulator fails the
constant-or-function test: collected variables are never function names or
constants. -/
theorem travWork_mem (isCF : String → Bool) :
    ∀ fuel l acc v, v ∈ travWork isCF fuel l acc → v ∈ acc ∨ isCF v = false := by
  intro fuel
  induction fuel with
  | zero => intro l acc v hv; exact Or.inl hv
  | succ fuel ih =>
    intro l acc v hv
    match l with
    | [] => exact Or.inl hv
    | .sym n :: rest =>
      rw [travWork] at hv
      rcases ih _ _ _ hv with hacc | hcf
      · by_cases hc : (isCF n || acc.contains n) = true
        · rw [if_pos hc] at hacc
          exact Or.inl hacc
        · rw [if_neg hc] at hacc
          rcases List.mem_append.mp hacc with h1 | h1
          · exact Or.inl h1
          · have : v = n := by simpa using h1
            subst this
            simp only [Bool.or_eq_true, not_or, Bool.not_eq_true] at hc
            exact Or.inr hc.1
      · exact Or.inr hcf
    | .fnNode name args :: rest =>
      rw [travWork] at hv
      exact ih _ _ _ hv
    | .opNode args :: rest =>
      rw [travWork] at hv
      exact ih _ _ _ hv
    | .paren c :: rest =>
      rw [travWork] at hv
      exact ih _ _ _ hv
    | .constNode :: rest =>
      rw [travWork] at hv
      exact ih _ _ _ hv

/-- C7: compilation validates free variables against the permitted set of the
mode — exactly {x, y} in real mode and {z, x, y} in complex mode; on violation
it fails listing every offending identifier (the filter of the collected
variables against the permitted set); identifiers that are recognized
constants or function names are never collected as free variables; and
compiling "x^2+y^2+w" in real mode fails naming exactly "w". -/
theorem c7_variable_validation :
    realValidVars = ["x", "y"] ∧
    complexValidVars = ["z", "x", "y"] ∧
    (∀ node : MathNode, ∀ v ∈ extractVariables node,
       realConstFnNames.contains v = false) ∧
    (∀ node : MathNode, ∀ v ∈ complexExtractVariables node,
       complexConstFnNames.contains v = false) ∧
    (∀ valid vars : List String,
       (vars.filter (fun v => !valid.contains v) ≠ [] →
         validateVars valid vars
           = .error (.invalidVariables (vars.filter (fun v => !valid.contains v)))) ∧
       (vars.filter (fun v => !valid.contains v) = [] →
         validateVars valid vars = .ok vars)) ∧
    parseExpressionVars "x^2+y^2+w"
        (fun s => if s = "x^2+y^2+w" then some treePowSum else none)
      = .error (.invalidVariables ["w"]) := by
  refine ⟨rfl, rfl, ?_, ?_, ?_, ?_⟩
  · intro node v hv
    rcases travWork_mem _ _ _ _ _ hv with h | h
    · simp at h
    · exact h
  · intro node v hv
    rcases travWork_mem _ _ _ _ _ hv with h | h
    · simp at h
    · exact h
  · intro valid vars
    constructor
    · intro h
      rw [validateVars]
      simp only [List.isEmpty_iff]
      rw [if_neg h]
    · intro h
      rw [validateVars]
      simp only [List.isEmpty_iff]
      rw [if_pos h]
  · rfl

/-- C7 witness: "w" is collected (not a function or constant name) from the
parse tree of x^2+y^2+w, and validation errors exactly on ["w"] while passing
["x", "y"]. -/
theorem c7_variable_validation_witness :
    realConstFnNames.contains "w" = false ∧
    validateVars realValidVars ["x", "y", "w"]
      = .error (.invalidVariables ["w"]) ∧
    validateVars realValidVars ["x", "y"] = .ok ["x", "y"] := by
  refine ⟨?_, ?_, ?_⟩
  · exact c7_variable_validation.2.2.1 treePowSum "w" (by decide)
  · have h := (c7_variable_validation.2.2.2.2.1 realValidVars ["x", "y", "w"]).1 (by decide)
    rw [h]
    rfl
  · exact (c7_variable_validation.2.2.2.2.1 realValidVars ["x", "y"]).2 (by decide)

/-- C8: the LaTeX input \frac{x}{y} converts to "((x)/(y))", which survives
right-hand-side extraction and implicit-multiplication normalization
unchanged, compiles in real mode with free variables exactly {x, y}, and the
compiled expression evaluates at (x = 4, y = 2) to 2.0. -/
theorem c8_latex_roundtrip :
    latexToMathjs "\\frac\x7bx\x7d\x7by\x7d" = "((x)/(y))" ∧
    extractRHS "((x)/(y))" = .ok "((x)/(y))" ∧
    addImplicitMultiplication "((x)/(y))" = "((x)/(y))" ∧
    parseExpressionVars "((x)/(y))"
        (fun s => if s = "((x)/(y))" then some treeFracXY else none)
      = .ok ["x", "y"] ∧
    evaluateAt fracCompiled 4 2 = .finite 2 := by
  refine ⟨by decide, by rfl, by decide, by rfl, ?_⟩
  have h2 : ((2 : ℚ) = 0) = False := by norm_num
  simp only [evaluateAt, fracCompiled, h2, if_false, JsNum.isFinite]
  norm_num
